import Mathlib

/-!
Verification of the interactive shell in `main.py` (Python-based command
terminal).  The Python source is shallowly embedded: Python strings become
Lean `String`s (sequences of `Char`), the filesystem becomes an association
list from path strings to nodes, and fallible operations return `Except`.
Each definition mirrors the corresponding Python function; theorems at the
end settle the specification claims.
-/

instance {ε α : Type} [DecidableEq ε] [DecidableEq α] : DecidableEq (Except ε α)
  | .error a, .error b =>
    if h : a = b then .isTrue (by rw [h]) else .isFalse (by intro hc; cases hc; exact h rfl)
  | .error _, .ok _ => .isFalse (by intro hc; cases hc)
  | .ok _, .error _ => .isFalse (by intro hc; cases hc)
  | .ok a, .ok b =>
    if h : a = b then .isTrue (by rw [h]) else .isFalse (by intro hc; cases hc; exact h rfl)

namespace PyTerm

/-! ## Tokenizer: embedding of `shlex.split(line)` (POSIX mode, no comments)

`shlex.split` in POSIX mode with `whitespace_split=True` is a character
state machine: whitespace (space, tab, CR, LF) separates tokens; `'...'`
takes its content literally; `"..."` takes its content literally except
that a backslash escapes `"` and `\` (otherwise the backslash is kept);
outside quotes a backslash escapes any next character.  An unterminated
quote raises `ValueError("No closing quotation")`; a dangling escape raises
`ValueError("No escaped character")`. -/

/-- `shlex.whitespace = " \t\r\n"`. -/
def isShWs (c : Char) : Bool :=
  c = ' ' || c = '\t' || c = '\r' || c = '\n'

/-- States of the `shlex` character state machine: outside quotes, after a
backslash outside quotes, inside single quotes, inside double quotes, and
after a backslash inside double quotes. -/
inductive TokSt
  | norm
  | esc
  | single
  | double
  | descQ
deriving DecidableEq, Repr

/-- The `shlex` token reader.  `hasTok` records whether a token has been
started (so that `''` yields an empty token while plain whitespace yields
none); `cur` is the token accumulated so far. -/
def runTok : TokSt → Bool → List Char → List Char → Except String (List (List Char))
  | .norm, hasTok, cur, [] => .ok (if hasTok then [cur] else [])
  | .norm, hasTok, cur, c :: cs =>
    if isShWs c then
      if hasTok then (runTok .norm false [] cs).map (cur :: ·)
      else runTok .norm false [] cs
    else if c = '\'' then runTok .single true cur cs
    else if c = '"' then runTok .double true cur cs
    else if c = '\\' then runTok .esc hasTok cur cs
    else runTok .norm true (cur ++ [c]) cs
  | .esc, _, _, [] => .error "No escaped character"
  | .esc, _, cur, c :: cs => runTok .norm true (cur ++ [c]) cs
  | .single, _, _, [] => .error "No closing quotation"
  | .single, _, cur, c :: cs =>
    if c = '\'' then runTok .norm true cur cs
    else runTok .single true (cur ++ [c]) cs
  | .double, _, _, [] => .error "No closing quotation"
  | .double, _, cur, c :: cs =>
    if c = '"' then runTok .norm true cur cs
    else if c = '\\' then runTok .descQ true cur cs
    else runTok .double true (cur ++ [c]) cs
  | .descQ, _, _, [] => .error "No escaped character"
  | .descQ, _, cur, c :: cs =>
    if c = '"' || c = '\\' then runTok .double true (cur ++ [c]) cs
    else runTok .double true (cur ++ ['\\', c]) cs

/-- `shlex.split(line)`: tokenize one raw input line.  `main.py` line 473. -/
def tokenize (s : String) : Except String (List String) :=
  (runTok .norm false [] s.data).map (List.map String.mk)

/-- Re-join a token list with single spaces (the re-parsing round trip the
spec describes). -/
def joinTokens : List String → String
  | [] => ""
  | [t] => t
  | t :: u :: ts => t ++ " " ++ joinTokens (u :: ts)

/-- A character that the tokenizer treats as ordinary text: not whitespace,
not a quote, not a backslash. -/
def plainChar (c : Char) : Bool :=
  !(isShWs c) && c ≠ '\'' && c ≠ '"' && c ≠ '\\'

/-- A token that survives the space-join round trip: non-empty and made of
ordinary characters only. -/
def plainToken (t : String) : Bool :=
  !t.data.isEmpty && t.data.all plainChar

example : tokenize "mkdir \"a b\" c" = .ok ["mkdir", "a b", "c"] := by decide
example : tokenize "echo 'x" = .error "No closing quotation" := by decide
example : tokenize "a\\ b" = .ok ["a b"] := by decide
example : tokenize "''" = .ok [""] := by decide
example : tokenize "\"a b\"" = .ok ["a b"] := by decide
example : tokenize (joinTokens ["a b"]) = .ok ["a", "b"] := by decide

/-- Consuming a run of ordinary characters in the base state just appends
them to the current token. -/
theorem runTok_norm_plain (cs : List Char) (hcs : ∀ c ∈ cs, plainChar c = true) :
    ∀ (h : Bool) (cur rest : List Char),
      runTok .norm h cur (cs ++ rest) = runTok .norm (h || !cs.isEmpty) (cur ++ cs) rest := by
  induction cs with
  | nil => intro h cur rest; simp
  | cons c cs ih =>
    intro h cur rest
    have hc := hcs c (by simp)
    simp only [plainChar, Bool.and_eq_true, Bool.not_eq_true', decide_eq_true_eq] at hc
    obtain ⟨⟨⟨h1, h2⟩, h3⟩, h4⟩ := hc
    simp only [List.cons_append, runTok, h1, h2, h3, h4, if_false, Bool.false_eq_true,
      if_neg h2, if_neg h3, if_neg h4, List.append_eq]
    rw [ih (fun d hd => hcs d (by simp [hd]))]
    simp

/-- Tokenizing the single-space join of non-empty ordinary tokens recovers
exactly those tokens. -/
theorem runTok_joinTokens (ts : List String) (hts : ∀ t ∈ ts, plainToken t = true) :
    runTok .norm false [] (joinTokens ts).data = .ok (ts.map String.data) := by
  induction ts with
  | nil => simp [joinTokens, runTok]
  | cons t ts ih =>
    have hp := hts t (by simp)
    simp only [plainToken, Bool.and_eq_true, Bool.not_eq_true', List.isEmpty_eq_false,
      List.all_eq_true] at hp
    obtain ⟨hne, hall⟩ := hp
    cases ts with
    | nil =>
      have := runTok_norm_plain t.data hall false [] []
      simp only [List.append_nil, List.nil_append] at this
      simp only [joinTokens, this, List.map_cons, List.map_nil]
      simp [runTok, List.isEmpty_eq_false.mpr hne, hne]
    | cons u ts =>
      have hdata : (joinTokens (t :: u :: ts)).data
          = t.data ++ (' ' :: (joinTokens (u :: ts)).data) := by
        show (t ++ " " ++ joinTokens (u :: ts)).data = _
        simp [String.data_append]
      rw [hdata, runTok_norm_plain t.data hall false [] _]
      simp only [List.nil_append, Bool.false_or, List.isEmpty_eq_false.mpr hne]
      have hws : isShWs ' ' = true := by decide
      simp only [runTok, hws, if_pos rfl, Bool.not_false, if_true]
      rw [ih (fun d hd => hts d (by simp at hd ⊢; tauto))]
      rfl

/-- Claim C2 (amended): for an input line whose tokens are all non-empty and
free of whitespace, quote and escape characters, tokenizing, re-joining with
single spaces, and tokenizing again yields the same token sequence. -/
theorem claim_C2_amended_roundtrip (line : String) (ts : List String)
    (_h1 : tokenize line = .ok ts) (h2 : ∀ t ∈ ts, plainToken t = true) :
    tokenize (joinTokens ts) = .ok ts := by
  unfold tokenize
  rw [runTok_joinTokens ts h2]
  show Except.ok ((ts.map String.data).map String.mk) = Except.ok ts
  have : (ts.map String.data).map String.mk = ts := by
    rw [List.map_map]
    exact List.map_id'' (fun t => by cases t; rfl) ts
  rw [this]

/-- Claim C2 witness: the round trip on the concrete line `mkdir "ab" c`. -/
theorem claim_C2_amended_roundtrip_witness :
    tokenize (joinTokens ["mkdir", "ab", "c"]) = .ok ["mkdir", "ab", "c"] :=
  claim_C2_amended_roundtrip "mkdir \"ab\" c" ["mkdir", "ab", "c"] (by decide) (by decide)

/-- Claim C2 counterexample: the line `"a b"` has balanced quoting and
tokenizes to the single token `a b`, but re-joining with single spaces and
re-tokenizing yields two tokens, not the original sequence. -/
theorem claim_C2_counterexample :
    tokenize "\"a b\"" = .ok ["a b"] ∧ tokenize (joinTokens ["a b"]) ≠ .ok ["a b"] := by
  constructor
  · decide
  · decide

/-! ## Filesystem model

The filesystem is an association list from path strings to nodes (first
match wins; `insertFS` keeps keys unique).  A directory's emptiness is
derived from the presence of entries under `path ++ "/"`.  Symbolic links
store their target path; `stat`-style queries follow one level of links,
as the claims only involve direct links. -/

/-- A filesystem node: a regular file with its content, a directory, or a
symbolic link to a target path. -/
inductive Node
  | file (content : String)
  | dir
  | symlink (target : String)
deriving DecidableEq, Repr

/-- A filesystem: an association list from absolute-ish path strings to nodes. -/
abbrev FS := List (String × Node)

def lookupFS (fs : FS) (p : String) : Option Node :=
  (fs.find? (fun e => e.1 = p)).map (fun e => e.2)

def eraseFS (fs : FS) (p : String) : FS :=
  fs.filter (fun e => e.1 ≠ p)

def insertFS (fs : FS) (p : String) (n : Node) : FS :=
  (p, n) :: eraseFS fs p

/-- `os.path.expanduser`: a leading `~` home shorthand (`~` alone or `~/`)
is replaced by the home directory; other strings pass through unchanged. -/
def expanduser (home p : String) : String :=
  match p.data with
  | ['~'] => home
  | '~' :: '/' :: rest => home ++ String.mk ('/' :: rest)
  | _ => p

/-- Strip a prefix from a character list, or fail. -/
def stripPre : List Char → List Char → Option (List Char)
  | [], rest => some rest
  | a :: as, rest =>
    match rest with
    | [] => none
    | b :: bs => if a = b then stripPre as bs else none

/-- Path join with the `/` separator (`Path(dst) / name` in the source). -/
def joinPath (d name : String) : String := d ++ "/" ++ name

/-- Split a character list at `/`. -/
def splitSlash : List Char → List (List Char)
  | [] => [[]]
  | c :: cs =>
    match splitSlash cs with
    | [] => [[c]]
    | t :: ts => if c = '/' then [] :: t :: ts else (c :: t) :: ts

/-- `PurePath.name` / `os.path.basename` for the paths the shell handles:
the last non-empty `/`-separated component. -/
def baseName (p : String) : String :=
  String.mk (((splitSlash p.data).filter (fun s => s ≠ [])).getLastD [])

/-- `Path.is_dir()`: true for a directory, or for a symbolic link whose
target is a directory (one level of following suffices here). -/
def isDirF (fs : FS) (p : String) : Bool :=
  match lookupFS fs p with
  | some .dir => true
  | some (.symlink t) =>
    match lookupFS fs t with
    | some .dir => true
    | _ => false
  | _ => false

/-- `Path.is_symlink()`. -/
def isSymlinkF (fs : FS) (p : String) : Bool :=
  match lookupFS fs p with
  | some (.symlink _) => true
  | _ => false

/-- No entry lies strictly under `p`, i.e. the directory is empty. -/
def isEmptyAt (fs : FS) (p : String) : Bool :=
  fs.all (fun e => (stripPre (p.data ++ ['/']) e.1.data).isNone)

/-- Re-key an entry that is `src` or lies under `src`, moving it under `dst`. -/
def retargetUnder (src dst : String) (e : String × Node) : Option (String × Node) :=
  if e.1 = src then some (dst, e.2)
  else
    match stripPre (src.data ++ ['/']) e.1.data with
    | some rest => some (String.mk (dst.data ++ '/' :: rest), e.2)
    | none => none

/-- `os.rename` as used by `shutil.move`: re-key `src` and everything under
it to `dst`, overwriting a plain `dst` entry. -/
def moveTree (fs : FS) (src dst : String) : FS :=
  (eraseFS fs dst).map (fun e => (retargetUnder src dst e).getD e)

/-- `shutil.move(src, dst)`: if `dst` is an existing directory the source is
moved inside it under its base name (failing when that name is taken),
otherwise `src` is renamed to `dst`.  A missing source fails. -/
def movePrim (fs : FS) (src dst : String) : Except String FS :=
  match lookupFS fs src with
  | none => .error ("No such file or directory: " ++ src)
  | some _ =>
    if isDirF fs dst then
      let target := joinPath dst (baseName src)
      if (lookupFS fs target).isSome then
        .error ("Destination path already exists: " ++ target)
      else .ok (moveTree fs src target)
    else .ok (moveTree fs src dst)

/-- `shutil.copy2(src, dst)`: copy a regular file's content to `dst`,
following a symlink source; a directory source or a missing source fails. -/
def copy2Prim (fs : FS) (src dst : String) : Except String FS :=
  match lookupFS fs src with
  | none => .error ("No such file or directory: " ++ src)
  | some (.file c) => .ok (insertFS fs dst (.file c))
  | some .dir => .error ("Is a directory: " ++ src)
  | some (.symlink t) =>
    match lookupFS fs t with
    | some (.file c) => .ok (insertFS fs dst (.file c))
    | some .dir => .error ("Is a directory: " ++ src)
    | _ => .error ("No such file or directory: " ++ src)

/-- `shutil.copytree(src, dst)`: duplicate the directory `src` and its
subtree at the fresh path `dst`. -/
def copytreePrim (fs : FS) (src dst : String) : Except String FS :=
  if (lookupFS fs dst).isSome then .error ("File exists: " ++ dst)
  else
    match lookupFS fs src with
    | some .dir => .ok ((fs.filterMap (retargetUnder src dst)) ++ fs)
    | _ => .error ("Not a directory: " ++ src)

/-- Cumulative `/`-joined path segments: `a/b/c ↦ [a, a/b, a/b/c]`. -/
def cumPaths : List (List Char) → List (List Char)
  | [] => []
  | part :: rest => part :: (cumPaths rest).map (fun q => part ++ '/' :: q)

/-- The ancestor paths `mkdir(parents=True)` would create, innermost last. -/
def prefixPaths (p : String) : List String :=
  ((cumPaths (splitSlash p.data)).filter (fun q => q ≠ [])).map String.mk

/-- `Path(p).mkdir(parents=True, exist_ok=True)`: an existing directory is
accepted; an existing non-directory fails; otherwise each missing ancestor
segment and the path itself become directories. -/
def mkdirP (fs : FS) (p : String) : Except String FS :=
  match lookupFS fs p with
  | some .dir => .ok fs
  | some _ => .error ("File exists: " ++ p)
  | none =>
    (prefixPaths p).foldlM (fun acc q =>
      match lookupFS acc q with
      | none => .ok (insertFS acc q .dir)
      | some .dir => .ok acc
      | some _ => .error ("Not a directory: " ++ q)) fs

/-! ## Built-in commands over the filesystem model

Each `cmd_*` mirrors the Python function of the same name in `main.py`,
returning the updated filesystem and the list of diagnostic lines the
Python code collects into `outs` (the source joins them with newlines). -/

/-- One iteration of the loop body of `cmd_rm` (`main.py` lines 127-140):
a directory that is not a symlink is removed only when empty, anything
else is unlinked, and a missing target produces one diagnostic. -/
def rmOne (home : String) (fs : FS) (target : String) : FS × List String :=
  let path := expanduser home target
  if isDirF fs path && !isSymlinkF fs path then
    if isEmptyAt fs path then (eraseFS fs path, [])
    else (fs, ["rm: cannot remove '" ++ target ++ "': Directory not empty"])
  else
    match lookupFS fs path with
    | none => (fs, ["rm: cannot remove '" ++ target ++ "': No such file or directory"])
    | some _ => (eraseFS fs path, [])

/-- The loop accumulation of `cmd_rm`: run one target, append its
diagnostics. -/
def rmStep (home : String) (st : FS × List String) (t : String) : FS × List String :=
  let r := rmOne home st.1 t
  (r.1, st.2 ++ r.2)

/-- `cmd_rm` (`main.py` lines 123-141). -/
def cmd_rm (home : String) (fs : FS) (args : List String) : FS × List String :=
  if args.isEmpty then (fs, ["rm: missing operand"])
  else args.foldl (rmStep home) (fs, [])

/-- The multi-source loop body of `cmd_cp`: expand the source, `copy2` it
into the destination directory under its base name, collect a diagnostic on
failure. -/
def cpStep (home dest : String) (st : FS × List String) (s : String) : FS × List String :=
  let sp := expanduser home s
  match copy2Prim st.1 sp (joinPath dest (baseName sp)) with
  | .ok fsn => (fsn, st.2)
  | .error e => (st.1, st.2 ++ ["cp: " ++ s ++ ": " ++ e])

/-- `cmd_cp` (`main.py` lines 206-236).  With several sources the
destination is created as a directory and every source is `copy2`-copied
inside it under its base name; with one source an existing directory
destination receives the file under its base name, and a directory source
is copied recursively. -/
def cmd_cp (home : String) (fs : FS) (args : List String) : FS × List String :=
  if args.length < 2 then (fs, ["cp: missing operand"])
  else
    let sources := args.dropLast
    let destR := args.getLastD ""
    let dest := expanduser home destR
    if 1 < sources.length then
      match mkdirP fs dest with
      | .error e => (fs, [e])
      | .ok fs1 => sources.foldl (cpStep home dest) (fs1, [])
    else
      let sp := expanduser home (sources.headD "")
      let target := if isDirF fs dest then joinPath dest (baseName sp) else dest
      if isDirF fs sp then
        match copytreePrim fs sp target with
        | .ok fsn => (fsn, [])
        | .error e => (fs, ["cp: " ++ sp ++ ": " ++ e])
      else
        match copy2Prim fs sp target with
        | .ok fsn => (fsn, [])
        | .error e => (fs, ["cp: " ++ sp ++ ": " ++ e])

/-- The multi-source loop body of `cmd_mv`: the source string is passed to
the move primitive as written, without expansion. -/
def mvStep (dest : String) (st : FS × List String) (s : String) : FS × List String :=
  match movePrim st.1 s dest with
  | .ok fsn => (fsn, st.2)
  | .error e => (st.1, st.2 ++ ["mv: " ++ s ++ ": " ++ e])

/-- `cmd_mv` (`main.py` lines 183-204).  Only the destination is passed
through `os.path.expanduser`; the sources are handed to `shutil.move` as
written on the command line. -/
def cmd_mv (home : String) (fs : FS) (args : List String) : FS × List String :=
  if args.length < 2 then (fs, ["mv: missing operand"])
  else
    let sources := args.dropLast
    let destR := args.getLastD ""
    let dest := expanduser home destR
    if 1 < sources.length then
      match mkdirP fs dest with
      | .error e => (fs, [e])
      | .ok fs1 => sources.foldl (mvStep dest) (fs1, [])
    else
      match movePrim fs (sources.headD "") dest with
      | .ok fsn => (fsn, [])
      | .error e => (fs, ["mv: " ++ sources.headD "" ++ ": " ++ e])

/-! ## Directory listing -/

/-- `os.listdir` resolution of the path argument: the path itself must be a
directory, possibly through a symlink. -/
def resolveDir (fs : FS) (p : String) : Option String :=
  match lookupFS fs p with
  | some .dir => some p
  | some (.symlink t) =>
    match lookupFS fs t with
    | some .dir => some t
    | _ => none
  | _ => none

/-- The name of `q` when it is a direct child of directory `p`. -/
def childNameOf (p q : String) : Option String :=
  match stripPre (p.data ++ ['/']) q.data with
  | some rest =>
    if rest ≠ [] && rest.all (fun c => c ≠ '/') then some (String.mk rest) else none
  | none => none

/-- `os.listdir(p)`: the names directly inside directory `p`. -/
def childNames (fs : FS) (p : String) : List String :=
  fs.filterMap (fun e => childNameOf p e.1)

/-- Code-point lexicographic order on character lists: how Python's
`sorted` compares strings. -/
def lexLe : List Char → List Char → Bool
  | [], _ => true
  | _ :: _, [] => false
  | a :: as, b :: bs => if a = b then lexLe as bs else decide (a.toNat < b.toNat)

/-- Python string comparison (`sorted(entries)` in `list_dir`). -/
def pyLe (a b : String) : Bool := lexLe a.data b.data

theorem char_toNat_inj {a b : Char} (h : a.toNat = b.toNat) : a = b :=
  Char.eq_of_val_eq (UInt32.ext h)

theorem lexLe_total : ∀ as bs, lexLe as bs = true ∨ lexLe bs as = true := by
  intro as
  induction as with
  | nil => intro bs; exact .inl rfl
  | cons a as ih =>
    intro bs
    cases bs with
    | nil => exact .inr rfl
    | cons b bs =>
      by_cases hab : a = b
      · subst hab
        simp only [lexLe, if_pos rfl]
        exact ih bs
      · have hn : a.toNat ≠ b.toNat := fun h => hab (char_toNat_inj h)
        have hba : ¬ b = a := fun h => hab h.symm
        simp only [lexLe, if_neg hab, if_neg hba, decide_eq_true_eq]
        omega

theorem lexLe_trans : ∀ as bs cs,
    lexLe as bs = true → lexLe bs cs = true → lexLe as cs = true := by
  intro as
  induction as with
  | nil => intro bs cs _ _; rfl
  | cons a as ih =>
    intro bs cs h1 h2
    cases bs with
    | nil => simp [lexLe] at h1
    | cons b bs =>
      cases cs with
      | nil => simp [lexLe] at h2
      | cons c cs =>
        by_cases hab : a = b <;> by_cases hbc : b = c
        · subst hab; subst hbc
          simp only [lexLe, if_pos rfl] at h1 h2 ⊢
          exact ih bs cs h1 h2
        · subst hab
          simp only [lexLe, if_pos rfl] at h1
          simp only [lexLe, if_neg hbc] at h2 ⊢
          exact h2
        · subst hbc
          simp only [lexLe, if_neg hab] at h1 ⊢
          exact h1
        · simp only [lexLe, if_neg hab, decide_eq_true_eq] at h1
          simp only [lexLe, if_neg hbc, decide_eq_true_eq] at h2
          have hac : a.toNat < c.toNat := lt_trans h1 h2
          have hane : ¬ a = c := fun h => by subst h; omega
          simp only [lexLe, if_neg hane, decide_eq_true_eq]
          exact hac

instance : IsTotal String (fun a b => pyLe a b = true) :=
  ⟨fun a b => lexLe_total a.data b.data⟩

instance : IsTrans String (fun a b => pyLe a b = true) :=
  ⟨fun a b c h1 h2 => lexLe_trans a.data b.data c.data h1 h2⟩

/-- The marker suffix `list_dir` appends: `/` when `Path(p)/name` is a
directory (symlinks followed), else `@` when it is a symlink, else nothing
(`main.py` lines 67-77). -/
def markerOf (fs : FS) (d name : String) : String :=
  if isDirF fs (joinPath d name) then name ++ "/"
  else if isSymlinkF fs (joinPath d name) then name ++ "@"
  else name

/-- `list_dir` (`main.py` lines 61-78): list the directory, sort the names,
and suffix each with its marker. -/
def list_dir (fs : FS) (p : String) : Except String (List String) :=
  match resolveDir fs p with
  | none => .error ("cannot open directory: " ++ p)
  | some d =>
    .ok (((childNames fs d).insertionSort (fun a b => pyLe a b = true)).map (markerOf fs d))

/-- Join strings with a separator (the source's `"\n".join(...)` and
friends), written recursively so that the kernel can evaluate it. -/
def joinWith (sep : String) : List String → String
  | [] => ""
  | [t] => t
  | t :: u :: ts => t ++ sep ++ joinWith sep (u :: ts)

/-- `cmd_ls` (`main.py` lines 88-94): default path `.`, diagnostics instead
of exceptions. -/
def cmd_ls (fs : FS) (args : List String) : String :=
  let path := args.headD "."
  match list_dir fs path with
  | .error e => "ls: cannot access '" ++ path ++ "': " ++ e
  | .ok items => joinWith "\n" items

example :
    cmd_rm "/h" [("e.txt", .file "x")] ["missing.txt", "e.txt"]
      = ([], ["rm: cannot remove 'missing.txt': No such file or directory"]) := by decide

example :
    cmd_cp "/h" [("a.txt", .file "A"), ("b.txt", .file "B")] ["a.txt", "b.txt", "destdir"]
      = ([("destdir/b.txt", .file "B"), ("destdir/a.txt", .file "A"), ("destdir", .dir),
          ("a.txt", .file "A"), ("b.txt", .file "B")], []) := by decide

example :
    list_dir [("d", .dir), ("d/ln", .symlink "t"), ("t", .dir), ("t/x.txt", .file "y")] "d"
      = .ok ["ln/"] := by decide

/-! ## Association-list lemmas -/

theorem lookupFS_insert_self (fs : FS) (p : String) (n : Node) :
    lookupFS (insertFS fs p n) p = some n := by
  simp [lookupFS, insertFS, List.find?]

theorem lookupFS_cons_eq (e : String × Node) (fs : FS) (q : String) (hq : e.1 = q) :
    lookupFS (e :: fs) q = some e.2 := by
  simp [lookupFS, List.find?, hq]

theorem lookupFS_cons_ne (e : String × Node) (fs : FS) (q : String) (hq : ¬ e.1 = q) :
    lookupFS (e :: fs) q = lookupFS fs q := by
  simp [lookupFS, List.find?, hq]

theorem lookupFS_erase_ne (fs : FS) (p q : String) (h : q ≠ p) :
    lookupFS (eraseFS fs p) q = lookupFS fs q := by
  induction fs with
  | nil => rfl
  | cons e fs ih =>
    by_cases he : e.1 = p
    · have h1 : eraseFS (e :: fs) p = eraseFS fs p := by
        simp [eraseFS, List.filter_cons, he]
      have hq : ¬ (e.1 = q) := by rw [he]; exact fun hc => h hc.symm
      rw [h1, lookupFS_cons_ne e fs q hq]; exact ih
    · have h1 : eraseFS (e :: fs) p = e :: eraseFS fs p := by
        simp [eraseFS, List.filter_cons, he]
      rw [h1]
      by_cases hq : e.1 = q
      · rw [lookupFS_cons_eq e (eraseFS fs p) q hq, lookupFS_cons_eq e fs q hq]
      · rw [lookupFS_cons_ne e (eraseFS fs p) q hq, lookupFS_cons_ne e fs q hq]
        exact ih

theorem lookupFS_erase_self (fs : FS) (p : String) :
    lookupFS (eraseFS fs p) p = none := by
  have : (eraseFS fs p).find? (fun e => e.1 = p) = none := by
    rw [List.find?_eq_none]
    intro x hx
    simp only [eraseFS, List.mem_filter] at hx
    simpa using hx.2
  simp [lookupFS, this]

theorem lookupFS_insert_ne (fs : FS) (p q : String) (n : Node) (h : q ≠ p) :
    lookupFS (insertFS fs p n) q = lookupFS fs q := by
  simp only [lookupFS, insertFS, List.find?]
  have : ¬ (p = q) := fun hc => h hc.symm
  simp only [this, decide_False]
  exact lookupFS_erase_ne fs p q h

/-! ## Claims about `rm` -/

/-- Claim C4: removal targets are attempted independently.  Splitting the
argument list anywhere splits the work: the second half runs on the
filesystem the first half left, and the diagnostics are concatenated (no
early exit).  In the spec's concrete scenario a missing first target yields
exactly one diagnostic line while the existing second target is still
removed, and a non-empty directory is refused with a diagnostic and kept. -/
theorem claim_C4_rm_independent_targets :
    (∀ (home : String) (fs : FS) (xs ys : List String), xs ≠ [] → ys ≠ [] →
      cmd_rm home fs (xs ++ ys)
        = ((cmd_rm home (cmd_rm home fs xs).1 ys).1,
           (cmd_rm home fs xs).2 ++ (cmd_rm home (cmd_rm home fs xs).1 ys).2))
    ∧ (∀ (home : String) (fs : FS) (miss ex c : String),
      lookupFS fs (expanduser home miss) = none →
      lookupFS fs (expanduser home ex) = some (.file c) →
      cmd_rm home fs [miss, ex]
        = (eraseFS fs (expanduser home ex),
           ["rm: cannot remove '" ++ miss ++ "': No such file or directory"]))
    ∧ (∀ (home : String) (fs : FS) (d : String),
      lookupFS fs (expanduser home d) = some .dir →
      isEmptyAt fs (expanduser home d) = false →
      cmd_rm home fs [d]
        = (fs, ["rm: cannot remove '" ++ d ++ "': Directory not empty"])) := by
  refine ⟨?_, ?_, ?_⟩
  · have acc : ∀ (home : String) (args : List String) (fs : FS) (out : List String),
        args.foldl (rmStep home) (fs, out)
          = ((args.foldl (rmStep home) (fs, [])).1,
             out ++ (args.foldl (rmStep home) (fs, [])).2) := by
      intro home args
      induction args with
      | nil => intro fs out; simp
      | cons t args ih =>
        intro fs out
        simp only [List.foldl_cons, rmStep]
        rw [ih (rmOne home fs t).1 (out ++ (rmOne home fs t).2),
          ih (rmOne home fs t).1 ([] ++ (rmOne home fs t).2)]
        simp [List.append_assoc]
    intro home fs xs ys hxs hys
    have hxe : xs.isEmpty = false := by simpa [List.isEmpty_iff] using hxs
    have hye : ys.isEmpty = false := by simpa [List.isEmpty_iff] using hys
    have hxye : (xs ++ ys).isEmpty = false := by
      simp [List.isEmpty_iff, hxs]
    simp only [cmd_rm, hxe, hye, hxye, Bool.false_eq_true, if_false, List.foldl_append]
    rw [acc home ys (xs.foldl (rmStep home) (fs, [])).1 (xs.foldl (rmStep home) (fs, [])).2]
  · intro home fs miss ex c hmiss hex
    simp [cmd_rm, rmStep, rmOne, isDirF, isSymlinkF, hmiss, hex]
  · intro home fs d hd hne
    simp [cmd_rm, rmStep, rmOne, isDirF, isSymlinkF, hd, hne]

/-- Claim C4 witness: the spec's scenario on a concrete filesystem. -/
theorem claim_C4_witness :
    cmd_rm "/h" [("e.txt", Node.file "x")] ["missing.txt", "e.txt"]
      = ([], ["rm: cannot remove 'missing.txt': No such file or directory"]) :=
  (claim_C4_rm_independent_targets.2.1 "/h" [("e.txt", Node.file "x")]
    "missing.txt" "e.txt" "x" (by decide) (by decide)).trans (by decide)

/-- Claim C10: a target that is a symbolic link (whatever it points at,
including a non-empty directory) is unlinked itself, with no diagnostic,
and every other entry of the filesystem — in particular the link's target
and anything inside it — is untouched. -/
theorem claim_C10_rm_unlinks_symlink (home : String) (fs : FS) (t tgt : String)
    (h : lookupFS fs (expanduser home t) = some (.symlink tgt)) :
    cmd_rm home fs [t] = (eraseFS fs (expanduser home t), [])
    ∧ ∀ q, q ≠ expanduser home t →
        lookupFS (cmd_rm home fs [t]).1 q = lookupFS fs q := by
  have hstep : cmd_rm home fs [t] = (eraseFS fs (expanduser home t), []) := by
    simp [cmd_rm, rmStep, rmOne, isSymlinkF, h]
  refine ⟨hstep, fun q hq => ?_⟩
  rw [hstep]
  exact lookupFS_erase_ne fs (expanduser home t) q hq

/-- Claim C10 witness: removing a link to a non-empty directory removes the
link only. -/
theorem claim_C10_witness :
    cmd_rm "/h" [("ln", Node.symlink "d"), ("d", Node.dir), ("d/f.txt", Node.file "z")] ["ln"]
      = ([("d", Node.dir), ("d/f.txt", Node.file "z")], []) :=
  ((claim_C10_rm_unlinks_symlink "/h"
      [("ln", Node.symlink "d"), ("d", Node.dir), ("d/f.txt", Node.file "z")]
      "ln" "d" (by decide)).1).trans (by decide)

/-! ## Claims about `~`-expansion in `mv` and `cp` -/

/-- Claim C3 counterexample: with the home directory `/home/u` and the file
`/home/u/a.txt` present, `mv ~/a.txt b.txt` fails — the move builtin hands
the source string to the move primitive unexpanded — while the same
invocation of `cp` succeeds because `cp` expands its sources. -/
theorem claim_C3_counterexample :
    cmd_mv "/home/u" [("/home/u/a.txt", Node.file "hi")] ["~/a.txt", "b.txt"]
      = ([("/home/u/a.txt", Node.file "hi")],
         ["mv: ~/a.txt: No such file or directory: ~/a.txt"])
    ∧ cmd_cp "/home/u" [("/home/u/a.txt", Node.file "hi")] ["~/a.txt", "b.txt"]
      = ([("b.txt", Node.file "hi"), ("/home/u/a.txt", Node.file "hi")], []) := by
  constructor
  · decide
  · decide

/-- Claim C3 (amended): the filesystem-affecting builtins expand a leading
`~` in their path arguments before use — `rm` expands its targets, `cp`
expands sources and destination — with the exception of `mv`, which expands
only its destination and passes each source path to the move primitive
exactly as written. -/
theorem claim_C3_amended_tilde_expansion :
    (∀ (home : String) (fs : FS) (t c : String),
      lookupFS fs (expanduser home t) = some (.file c) →
      cmd_rm home fs [t] = (eraseFS fs (expanduser home t), []))
    ∧ (∀ (home : String) (fs : FS) (s d c : String),
      lookupFS fs (expanduser home s) = some (.file c) →
      isDirF fs (expanduser home d) = false →
      cmd_cp home fs [s, d] = (insertFS fs (expanduser home d) (.file c), []))
    ∧ (∀ (home : String) (fs : FS) (s d : String) (c : String),
      lookupFS fs s = some (.file c) →
      isDirF fs (expanduser home d) = false →
      cmd_mv home fs [s, d] = (moveTree fs s (expanduser home d), []))
    ∧ (∀ (home : String) (fs : FS) (s d : String) (c : String),
      lookupFS fs s = none →
      lookupFS fs (expanduser home s) = some (.file c) →
      cmd_mv home fs [s, d]
        = (fs, ["mv: " ++ s ++ ": " ++ ("No such file or directory: " ++ s)])) := by
  refine ⟨?_, ?_, ?_, ?_⟩
  · intro home fs t c h
    simp [cmd_rm, rmStep, rmOne, isDirF, isSymlinkF, h]
  · intro home fs s d c hs hd
    have hsp : isDirF fs (expanduser home s) = false := by
      simp [isDirF, hs]
    simp [cmd_cp, hd, hsp, copy2Prim, hs]
  · intro home fs s d c hs hd
    simp [cmd_mv, movePrim, hs, hd]
  · intro home fs s d c hs hexp
    simp [cmd_mv, movePrim, hs]

/-- Claim C3 witness: `rm` does expand a `~/` target. -/
theorem claim_C3_amended_witness :
    cmd_rm "/home/u" [("/home/u/a.txt", Node.file "hi")] ["~/a.txt"] = ([], []) :=
  (claim_C3_amended_tilde_expansion.1 "/home/u" [("/home/u/a.txt", Node.file "hi")]
    "~/a.txt" "hi" (by decide)).trans (by decide)

/-! ## Path string lemmas -/

theorem string_mk_data (s : String) : String.mk s.data = s := by
  cases s; rfl

theorem joinPath_data (d x : String) : (joinPath d x).data = d.data ++ '/' :: x.data := by
  show ((d ++ "/") ++ x).data = _
  rw [String.data_append, String.data_append]
  simp

theorem joinPath_ne_left (d x : String) : joinPath d x ≠ d := by
  intro h
  have hl := congrArg (fun s => s.data.length) h
  simp only [joinPath_data, List.length_append, List.length_cons] at hl
  omega

theorem joinPath_right_inj {d a b : String} (h : joinPath d a = joinPath d b) : a = b := by
  have hd := congrArg String.data h
  rw [joinPath_data, joinPath_data] at hd
  have htail := List.append_cancel_left hd
  have hab : a.data = b.data := by
    injection htail
  exact String.ext hab

theorem splitSlash_no_slash (cs : List Char) (h : ∀ c ∈ cs, c ≠ '/') :
    splitSlash cs = [cs] := by
  induction cs with
  | nil => rfl
  | cons c cs ih =>
    have hc : c ≠ '/' := h c (by simp)
    rw [splitSlash, ih (fun d hd => h d (by simp [hd]))]
    simp [hc]

theorem prefixPaths_no_slash (p : String) (hne : p.data ≠ [])
    (h : ∀ c ∈ p.data, c ≠ '/') : prefixPaths p = [p] := by
  unfold prefixPaths
  rw [splitSlash_no_slash p.data h]
  simp [cumPaths, hne, string_mk_data]

theorem mkdirP_fresh (fs : FS) (p : String) (hl : lookupFS fs p = none)
    (hne : p.data ≠ []) (hnosl : ∀ c ∈ p.data, c ≠ '/') :
    mkdirP fs p = .ok (insertFS fs p .dir) := by
  simp [mkdirP, hl, prefixPaths_no_slash p hne hnosl, List.foldlM]

/-! ## The multi-source copy loop -/

/-- Invariant of the `cmd_cp` multi-source fold: when every source expands
to an existing regular file and no copy destination collides with a source,
the fold produces no diagnostics, leaves unrelated paths untouched, and
(for pairwise distinct base names) deposits each source's content at its
base name inside the destination. -/
theorem cpStep_fold_spec (home dest : String) (srcs : List String) :
    ∀ (fs0 : FS) (out0 : List String),
    (∀ s ∈ srcs, ∃ c, lookupFS fs0 (expanduser home s) = some (.file c)) →
    (∀ s ∈ srcs, ∀ t ∈ srcs,
      joinPath dest (baseName (expanduser home t)) ≠ expanduser home s) →
    ((srcs.foldl (cpStep home dest) (fs0, out0)).2 = out0)
    ∧ (∀ q, (∀ s ∈ srcs, q ≠ joinPath dest (baseName (expanduser home s))) →
        lookupFS (srcs.foldl (cpStep home dest) (fs0, out0)).1 q = lookupFS fs0 q)
    ∧ ((srcs.map (fun s => baseName (expanduser home s))).Nodup →
      ∀ s ∈ srcs, ∀ c, lookupFS fs0 (expanduser home s) = some (.file c) →
        lookupFS (srcs.foldl (cpStep home dest) (fs0, out0)).1
          (joinPath dest (baseName (expanduser home s))) = some (.file c)) := by
  induction srcs with
  | nil =>
    intro fs0 out0 _ _
    exact ⟨rfl, fun q _ => rfl, fun _ s hs => absurd hs (List.not_mem_nil s)⟩
  | cons s srcs ih =>
    intro fs0 out0 hsrc hni
    obtain ⟨c, hc⟩ := hsrc s (by simp)
    have hstep : cpStep home dest (fs0, out0) s
        = (insertFS fs0 (joinPath dest (baseName (expanduser home s))) (.file c), out0) := by
      simp [cpStep, copy2Prim, hc]
    have hlook : ∀ t ∈ srcs,
        lookupFS (insertFS fs0 (joinPath dest (baseName (expanduser home s))) (.file c))
          (expanduser home t) = lookupFS fs0 (expanduser home t) := by
      intro t ht
      exact lookupFS_insert_ne _ _ _ _
        (hni t (by simp [ht]) s (by simp)).symm
    have hsrc1 : ∀ t ∈ srcs, ∃ c2,
        lookupFS (insertFS fs0 (joinPath dest (baseName (expanduser home s))) (.file c))
          (expanduser home t) = some (.file c2) := by
      intro t ht
      rw [hlook t ht]
      exact hsrc t (by simp [ht])
    have hni1 : ∀ a ∈ srcs, ∀ b ∈ srcs,
        joinPath dest (baseName (expanduser home b)) ≠ expanduser home a := by
      intro a ha b hb
      exact hni a (by simp [ha]) b (by simp [hb])
    obtain ⟨ih1, ih2, ih3⟩ :=
      ih (insertFS fs0 (joinPath dest (baseName (expanduser home s))) (.file c)) out0
        hsrc1 hni1
    refine ⟨?_, ?_, ?_⟩
    · simp only [List.foldl_cons, hstep]
      exact ih1
    · intro q hq
      simp only [List.foldl_cons, hstep]
      rw [ih2 q (fun t ht => hq t (by simp [ht]))]
      exact lookupFS_insert_ne _ _ _ _ (hq s (by simp))
    · intro hnd t ht c2 hc2
      simp only [List.foldl_cons, hstep]
      rcases List.mem_cons.mp ht with rfl | ht2
      · have hcc : c2 = c := by
          rw [hc] at hc2
          exact (Node.file.inj (Option.some.inj hc2)).symm
        subst hcc
        have hkey : ∀ u ∈ srcs,
            joinPath dest (baseName (expanduser home t))
              ≠ joinPath dest (baseName (expanduser home u)) := by
          intro u hu hcoll
          have hb := joinPath_right_inj hcoll
          have hmap := hnd
          rw [List.map_cons] at hmap
          have hhead := (List.nodup_cons.mp hmap).1
          exact hhead (hb ▸ List.mem_map_of_mem (fun x => baseName (expanduser home x)) hu)
        rw [ih2 _ hkey]
        exact lookupFS_insert_self _ _ _
      · have hmap := hnd
        rw [List.map_cons] at hmap
        have hnd2 : (srcs.map (fun x => baseName (expanduser home x))).Nodup :=
          (List.nodup_cons.mp hmap).2
        refine ih3 hnd2 t ht2 c2 ?_
        rw [hlook t ht2]
        exact hc2

/-- Claim C5: invoking `cp` with more than one source and a fresh
destination (a simple path with no `/`) creates the destination directory,
reports no diagnostics, and places each source file inside it under its
original base name with its content intact. -/
theorem claim_C5_cp_multi_creates_dest (home : String) (fs : FS)
    (sources : List String) (destR : String)
    (hlen : 1 < sources.length)
    (hsrc : ∀ s ∈ sources, ∃ c, lookupFS fs (expanduser home s) = some (.file c))
    (hdest : lookupFS fs (expanduser home destR) = none)
    (hne : (expanduser home destR).data ≠ [])
    (hnosl : ∀ ch ∈ (expanduser home destR).data, ch ≠ '/')
    (hni : ∀ s ∈ sources, ∀ t ∈ sources,
      joinPath (expanduser home destR) (baseName (expanduser home t)) ≠ expanduser home s)
    (hnd : (sources.map (fun s => baseName (expanduser home s))).Nodup) :
    (cmd_cp home fs (sources ++ [destR])).2 = []
    ∧ lookupFS (cmd_cp home fs (sources ++ [destR])).1 (expanduser home destR)
        = some Node.dir
    ∧ ∀ s ∈ sources, ∀ c, lookupFS fs (expanduser home s) = some (.file c) →
        lookupFS (cmd_cp home fs (sources ++ [destR])).1
          (joinPath (expanduser home destR) (baseName (expanduser home s)))
          = some (.file c) := by
  have hlen2 : ¬ (sources ++ [destR]).length < 2 := by
    simp only [List.length_append, List.length_cons, List.length_nil]
    omega
  have hcp : cmd_cp home fs (sources ++ [destR])
      = sources.foldl (cpStep home (expanduser home destR))
          (insertFS fs (expanduser home destR) .dir, []) := by
    unfold cmd_cp
    rw [if_neg hlen2]
    simp only [List.dropLast_concat, List.getLastD_concat]
    rw [if_pos hlen, mkdirP_fresh fs (expanduser home destR) hdest hne hnosl]
  have hsrc1 : ∀ s ∈ sources, ∃ c,
      lookupFS (insertFS fs (expanduser home destR) .dir) (expanduser home s)
        = some (.file c) := by
    intro s hs
    obtain ⟨c, hc⟩ := hsrc s hs
    refine ⟨c, ?_⟩
    rw [lookupFS_insert_ne]
    · exact hc
    · intro hcoll
      rw [hcoll] at hc
      rw [hdest] at hc
      cases hc
  obtain ⟨h1, h2, h3⟩ :=
    cpStep_fold_spec home (expanduser home destR) sources
      (insertFS fs (expanduser home destR) .dir) [] hsrc1 hni
  refine ⟨?_, ?_, ?_⟩
  · rw [hcp]; exact h1
  · rw [hcp]
    rw [h2 (expanduser home destR)
      (fun s _ => (joinPath_ne_left (expanduser home destR)
        (baseName (expanduser home s))).symm)]
    exact lookupFS_insert_self _ _ _
  · intro s hs c hc
    rw [hcp]
    refine h3 hnd s hs c ?_
    rw [lookupFS_insert_ne]
    · exact hc
    · intro hcoll
      rw [hcoll] at hc
      rw [hdest] at hc
      cases hc

/-- Claim C5 witness: copying `a.txt` and `b.txt` to a fresh `destdir`. -/
theorem claim_C5_witness :
    (cmd_cp "/h" [("a.txt", Node.file "A"), ("b.txt", Node.file "B")]
        (["a.txt", "b.txt"] ++ ["destdir"])).2 = []
    ∧ lookupFS (cmd_cp "/h" [("a.txt", Node.file "A"), ("b.txt", Node.file "B")]
        (["a.txt", "b.txt"] ++ ["destdir"])).1 (expanduser "/h" "destdir") = some Node.dir
    ∧ ∀ s ∈ ["a.txt", "b.txt"], ∀ c,
        lookupFS [("a.txt", Node.file "A"), ("b.txt", Node.file "B")]
          (expanduser "/h" s) = some (.file c) →
        lookupFS (cmd_cp "/h" [("a.txt", Node.file "A"), ("b.txt", Node.file "B")]
            (["a.txt", "b.txt"] ++ ["destdir"])).1
          (joinPath (expanduser "/h" "destdir") (baseName (expanduser "/h" s)))
          = some (.file c) :=
  claim_C5_cp_multi_creates_dest "/h" [("a.txt", Node.file "A"), ("b.txt", Node.file "B")]
    ["a.txt", "b.txt"] "destdir" (by decide)
    (by
      intro s hs
      rcases List.mem_cons.mp hs with rfl | hs2
      · exact ⟨"A", by decide⟩
      · rcases List.mem_cons.mp hs2 with rfl | hs3
        · exact ⟨"B", by decide⟩
        · cases hs3)
    (by decide) (by decide) (by decide) (by decide) (by decide)

/-! ## Claims about `list_dir` -/

example :
    list_dir [("d", Node.dir), ("d/b.txt", Node.file "x"), ("d/a", Node.dir)] "d"
      = .ok ["a/", "b.txt"] := by decide

/-- Claim C9 counterexample: `d/ln` is a symbolic link, yet `list_dir`
suffixes it with the directory marker `/` (because `is_dir()` is checked
first and follows the link), not with the link marker `@`. -/
theorem claim_C9_counterexample :
    list_dir [("d", Node.dir), ("d/ln", Node.symlink "t"), ("t", Node.dir)] "d"
      = .ok ["ln/"]
    ∧ isSymlinkF [("d", Node.dir), ("d/ln", Node.symlink "t"), ("t", Node.dir)] "d/ln"
      = true := by
  constructor
  · decide
  · decide

/-- Claim C9 (amended): `list_dir` returns the directory's entry names in
sorted order; an entry that resolves to a directory — including a symbolic
link pointing at a directory — is suffixed with the directory marker `/`,
a symbolic link that does not resolve to a directory is suffixed with the
link marker `@`, and other entries are unmarked. -/
theorem claim_C9_amended_list_dir (fs : FS) (p d : String) (out : List String)
    (hd : resolveDir fs p = some d) (h : list_dir fs p = .ok out) :
    ∃ ns, List.Perm ns (childNames fs d)
      ∧ List.Pairwise (fun a b : String => pyLe a b = true) ns
      ∧ out = ns.map (markerOf fs d)
      ∧ ∀ n ∈ ns,
          (isDirF fs (joinPath d n) = true → markerOf fs d n = n ++ "/")
          ∧ (isDirF fs (joinPath d n) = false → isSymlinkF fs (joinPath d n) = true →
              markerOf fs d n = n ++ "@")
          ∧ (isDirF fs (joinPath d n) = false → isSymlinkF fs (joinPath d n) = false →
              markerOf fs d n = n) := by
  refine ⟨(childNames fs d).insertionSort (fun a b => pyLe a b = true), ?_, ?_, ?_, ?_⟩
  · exact List.perm_insertionSort _ _
  · exact List.sorted_insertionSort _ _
  · unfold list_dir at h
    rw [hd] at h
    exact (Except.ok.inj h).symm
  · intro n _
    refine ⟨?_, ?_, ?_⟩
    · intro h1
      simp [markerOf, h1]
    · intro h1 h2
      simp [markerOf, h1, h2]
    · intro h1 h2
      simp [markerOf, h1, h2]

/-- Claim C9 witness: a concrete directory with a subdirectory and a file,
listed sorted and marked. -/
theorem claim_C9_witness :
    ∃ ns, List.Perm ns (childNames
        [("d", Node.dir), ("d/b.txt", Node.file "x"), ("d/a", Node.dir)] "d")
      ∧ List.Pairwise (fun a b : String => pyLe a b = true) ns
      ∧ ["a/", "b.txt"] = ns.map (markerOf
          [("d", Node.dir), ("d/b.txt", Node.file "x"), ("d/a", Node.dir)] "d")
      ∧ ∀ n ∈ ns,
          (isDirF [("d", Node.dir), ("d/b.txt", Node.file "x"), ("d/a", Node.dir)]
              (joinPath "d" n) = true →
            markerOf [("d", Node.dir), ("d/b.txt", Node.file "x"), ("d/a", Node.dir)] "d" n
              = n ++ "/")
          ∧ (isDirF [("d", Node.dir), ("d/b.txt", Node.file "x"), ("d/a", Node.dir)]
              (joinPath "d" n) = false →
            isSymlinkF [("d", Node.dir), ("d/b.txt", Node.file "x"), ("d/a", Node.dir)]
              (joinPath "d" n) = true →
            markerOf [("d", Node.dir), ("d/b.txt", Node.file "x"), ("d/a", Node.dir)] "d" n
              = n ++ "@")
          ∧ (isDirF [("d", Node.dir), ("d/b.txt", Node.file "x"), ("d/a", Node.dir)]
              (joinPath "d" n) = false →
            isSymlinkF [("d", Node.dir), ("d/b.txt", Node.file "x"), ("d/a", Node.dir)]
              (joinPath "d" n) = false →
            markerOf [("d", Node.dir), ("d/b.txt", Node.file "x"), ("d/a", Node.dir)] "d" n
              = n) :=
  claim_C9_amended_list_dir
    [("d", Node.dir), ("d/b.txt", Node.file "x"), ("d/a", Node.dir)] "d" "d"
    ["a/", "b.txt"] (by decide) (by decide)

/-! ## History store

The history file is modelled as its list of lines.  `main.py` appends
`line + "\n"` for every accepted line (`append_history_line`, lines
448-453); the loop's guard `if not line.strip(): continue` (line 470) keeps
whitespace-only input out; `cmd_history` (lines 349-358) numbers the lines
1-based as `f"{i+1}: {l}"`. -/

/-- Python `str` whitespace, as `str.strip()` removes it. -/
def isPyWs (c : Char) : Bool :=
  c = ' ' || c = '\t' || c = '\n' || c = '\r' || c = '\x0b' || c = '\x0c'

/-- `not line.strip()`: the line is empty or whitespace-only. -/
def pyStripEmpty (s : String) : Bool := s.data.all isPyWs

/-- `append_history_line` (`main.py` lines 448-453): append one line to the
history file. -/
def append_history_line (hist : List String) (line : String) : List String :=
  hist ++ [line]

/-- One accepted line as the main loop treats it: whitespace-only input is
skipped before the history append (`main.py` lines 470-472). -/
def acceptLine (hist : List String) (line : String) : List String :=
  if pyStripEmpty line then hist else append_history_line hist line

/-- The numbered lines `f"{i+1}: {l}"`, starting the counter at `k`. -/
def numberFrom (k : Nat) : List String → List String
  | [] => []
  | l :: ls => (toString k ++ ": " ++ l) :: numberFrom (k + 1) ls

/-- The enumeration `cmd_history` prints: 1-based numbering in file order. -/
def historyLines (hist : List String) : List String := numberFrom 1 hist

/-- `cmd_history` (`main.py` lines 349-358): `none` models a missing
history file. -/
def cmd_history (hist : Option (List String)) : String :=
  match hist with
  | none => "(no history)"
  | some lines => joinWith "\n" (historyLines lines)

theorem numberFrom_getD (ls : List String) :
    ∀ (k i : Nat), (numberFrom k ls).getD i ""
      = if i < ls.length then toString (k + i) ++ ": " ++ ls.getD i "" else "" := by
  induction ls with
  | nil => intro k i; simp [numberFrom]
  | cons l ls ih =>
    intro k i
    cases i with
    | zero => simp [numberFrom]
    | succ i =>
      simp only [numberFrom, List.getD_cons_succ, List.length_cons]
      rw [ih (k + 1) i]
      have harith : k + 1 + i = k + (i + 1) := by omega
      simp [harith, Nat.succ_lt_succ_iff]

theorem numberFrom_length (ls : List String) : ∀ k, (numberFrom k ls).length = ls.length := by
  induction ls with
  | nil => intro k; rfl
  | cons l ls ih => intro k; simp [numberFrom, ih]

theorem foldl_acceptLine (lines : List String)
    (h : ∀ l ∈ lines, pyStripEmpty l = false) :
    ∀ h0, List.foldl acceptLine h0 lines = h0 ++ lines := by
  induction lines with
  | nil => intro h0; simp
  | cons l ls ih =>
    intro h0
    simp only [List.foldl_cons, acceptLine, h l (by simp), Bool.false_eq_true, if_false,
      append_history_line]
    rw [ih (fun d hd => h d (by simp [hd])) (h0 ++ [l])]
    simp

/-- Claim C6: accepted non-empty lines are appended to the history in
order; listing numbers them 1-based (`1:`, `2:`, ...); a whitespace-only
line is never appended and leaves the count unchanged. -/
theorem claim_C6_history_append_order :
    (∀ lines : List String, (∀ l ∈ lines, pyStripEmpty l = false) →
      List.foldl acceptLine [] lines = lines)
    ∧ (∀ (hist : List String) (w : String), pyStripEmpty w = true →
      acceptLine hist w = hist ∧ (acceptLine hist w).length = hist.length)
    ∧ (∀ hist : List String, (historyLines hist).length = hist.length)
    ∧ (∀ (hist : List String) (i : Nat),
      (historyLines hist).getD i ""
        = if i < hist.length then toString (i + 1) ++ ": " ++ hist.getD i "" else "") := by
  refine ⟨?_, ?_, ?_, ?_⟩
  · intro lines h
    exact foldl_acceptLine lines h []
  · intro hist w hw
    constructor
    · simp [acceptLine, hw]
    · simp [acceptLine, hw]
  · intro hist
    exact numberFrom_length hist 1
  · intro hist i
    rw [historyLines, numberFrom_getD hist 1 i]
    have harith : 1 + i = i + 1 := by omega
    simp [harith]

/-- Claim C6 witness: three accepted lines, a skipped blank line, and the
1-based numbering of the third entry. -/
theorem claim_C6_witness :
    List.foldl acceptLine [] ["ls", "pwd", "cd x"] = ["ls", "pwd", "cd x"]
    ∧ acceptLine ["ls", "pwd", "cd x"] "   " = ["ls", "pwd", "cd x"]
    ∧ (historyLines ["ls", "pwd", "cd x"]).getD 2 "" = toString (2 + 1) ++ ": " ++ "cd x" := by
  refine ⟨claim_C6_history_append_order.1 ["ls", "pwd", "cd x"] ?_,
    (claim_C6_history_append_order.2.1 ["ls", "pwd", "cd x"] "   " (by decide)).1, ?_⟩
  · intro l hl
    rcases List.mem_cons.mp hl with rfl | hl2
    · decide
    · rcases List.mem_cons.mp hl2 with rfl | hl3
      · decide
      · rcases List.mem_cons.mp hl3 with rfl | hl4
        · decide
        · cases hl4
  · rw [claim_C6_history_append_order.2.2.2 ["ls", "pwd", "cd x"] 2]
    rfl

/-! ## Completion engine (command position)

`completer` (`main.py` lines 381-412) at `begidx == 0`: candidates are the
builtins whose names start with the prefix, then every executable found on
the search path, prefix-filtered and deduplicated against the `seen` set
(initialised with the builtin candidates).  The search path is modelled as
the per-directory name lists that `os.listdir` returns (a directory whose
listing raises contributes nothing and is simply absent). -/

/-- `BUILTINS` (`main.py` lines 37-40). -/
def BUILTINS : List String :=
  ["ls", "cd", "pwd", "mkdir", "rm", "rmdir", "cat", "touch", "mv", "cp", "help",
   "exit", "quit", "clear", "sysinfo", "ps", "top", "history"]

/-- `f.startswith(text)`. -/
def pyStartsWith (text f : String) : Bool :=
  (stripPre text.data f.data).isSome

/-- The inner loop body: `if f.startswith(text) and f not in seen:
candidates.append(f); seen.add(f)`.  The `seen` set always equals the set
of collected candidates, so membership in the accumulator models it. -/
def addExternal (text : String) (acc : List String) (f : String) : List String :=
  if pyStartsWith text f && !acc.contains f then acc ++ [f] else acc

/-- The command-position candidate list of `completer`: prefix-matching
builtins first (registry order), then path executables in discovery order,
deduplicated. -/
def commandCandidates (text : String) (dirs : List (List String)) : List String :=
  let base := BUILTINS.filter (fun c => pyStartsWith text c)
  dirs.foldl (fun acc files => files.foldl (addExternal text) acc) base

/-- `completer(text, state)`: the `state`-th candidate, or none. -/
def completer (text : String) (dirs : List (List String)) (state : Nat) : Option String :=
  (commandCandidates text dirs).get? state

theorem addExternal_extends (text : String) (acc : List String) (f : String) :
    ∃ e, addExternal text acc f = acc ++ e := by
  unfold addExternal
  by_cases h : (pyStartsWith text f && !acc.contains f) = true
  · exact ⟨[f], by rw [if_pos h]⟩
  · exact ⟨[], by rw [if_neg h]; simp⟩

theorem foldl_addExternal_extends (text : String) (files : List String) :
    ∀ acc, ∃ e, files.foldl (addExternal text) acc = acc ++ e := by
  induction files with
  | nil => exact fun acc => ⟨[], by simp⟩
  | cons f fs ih =>
    intro acc
    obtain ⟨e1, he1⟩ := addExternal_extends text acc f
    obtain ⟨e2, he2⟩ := ih (acc ++ e1)
    exact ⟨e1 ++ e2, by simp only [List.foldl_cons, he1, he2, List.append_assoc]⟩

theorem foldl_dirs_extends (text : String) (dirs : List (List String)) :
    ∀ acc, ∃ e, dirs.foldl (fun acc files => files.foldl (addExternal text) acc) acc
      = acc ++ e := by
  induction dirs with
  | nil => exact fun acc => ⟨[], by simp⟩
  | cons files dirs ih =>
    intro acc
    obtain ⟨e1, he1⟩ := foldl_addExternal_extends text files acc
    obtain ⟨e2, he2⟩ := ih (acc ++ e1)
    exact ⟨e1 ++ e2, by simp only [List.foldl_cons, he1, he2, List.append_assoc]⟩

theorem addExternal_nodup (text : String) (acc : List String) (f : String)
    (h : acc.Nodup) : (addExternal text acc f).Nodup := by
  unfold addExternal
  by_cases hc : (pyStartsWith text f && !acc.contains f) = true
  · rw [if_pos hc]
    have hnm : f ∉ acc := by
      have := (Bool.and_eq_true _ _).mp hc
      simpa using this.2
    simp [List.nodup_append, h, hnm]
  · rw [if_neg hc]; exact h

theorem foldl_addExternal_nodup (text : String) (files : List String) :
    ∀ acc, acc.Nodup → (files.foldl (addExternal text) acc).Nodup := by
  induction files with
  | nil => exact fun acc h => h
  | cons f fs ih =>
    intro acc h
    exact ih (addExternal text acc f) (addExternal_nodup text acc f h)

theorem foldl_dirs_nodup (text : String) (dirs : List (List String)) :
    ∀ acc : List String, acc.Nodup →
      (dirs.foldl (fun acc files => files.foldl (addExternal text) acc) acc).Nodup := by
  induction dirs with
  | nil => exact fun acc h => h
  | cons files dirs ih =>
    intro acc h
    exact ih _ (foldl_addExternal_nodup text files acc h)

/-- Claim C7: command-position completion lists the prefix-matching
builtins first, in registry order, followed by externals; the whole
candidate list is duplicate-free (externals colliding with a builtin's name
are dropped); every matching builtin occurs, and with the empty prefix
every builtin occurs exactly once. -/
theorem claim_C7_completion_no_duplicates :
    (∀ (text : String) (dirs : List (List String)),
      ∃ ext, commandCandidates text dirs
        = BUILTINS.filter (fun c => pyStartsWith text c) ++ ext)
    ∧ (∀ (text : String) (dirs : List (List String)),
      (commandCandidates text dirs).Nodup)
    ∧ (∀ (text : String) (dirs : List (List String)) (b : String),
      b ∈ BUILTINS → pyStartsWith text b = true → b ∈ commandCandidates text dirs)
    ∧ (∀ (dirs : List (List String)) (b : String), b ∈ BUILTINS →
      (commandCandidates "" dirs).count b = 1) := by
  have hext : ∀ (text : String) (dirs : List (List String)),
      ∃ ext, commandCandidates text dirs
        = BUILTINS.filter (fun c => pyStartsWith text c) ++ ext := by
    intro text dirs
    exact foldl_dirs_extends text dirs _
  have hnodup : ∀ (text : String) (dirs : List (List String)),
      (commandCandidates text dirs).Nodup := by
    intro text dirs
    have hbase : (BUILTINS.filter (fun c => pyStartsWith text c)).Nodup :=
      List.Nodup.filter _ (by decide)
    exact foldl_dirs_nodup text dirs _ hbase
  have hmem : ∀ (text : String) (dirs : List (List String)) (b : String),
      b ∈ BUILTINS → pyStartsWith text b = true → b ∈ commandCandidates text dirs := by
    intro text dirs b hb hpw
    obtain ⟨ext, he⟩ := hext text dirs
    rw [he]
    exact List.mem_append_left ext (List.mem_filter.mpr ⟨hb, hpw⟩)
  refine ⟨hext, hnodup, hmem, ?_⟩
  intro dirs b hb
  have hpw : pyStartsWith "" b = true := by
    show (stripPre ("" : String).data b.data).isSome = true
    rw [show ("" : String).data = [] from rfl]
    rfl
  exact List.count_eq_one_of_mem (hnodup "" dirs) (hmem "" dirs b hb hpw)

/-- Claim C7 witness: with the empty prefix and a search directory that
offers both a fresh name and a clash with the builtin `ls`, the builtin
appears, appears once, and the candidate list is duplicate-free. -/
theorem claim_C7_witness :
    "ls" ∈ commandCandidates "" [["ls", "zz"]]
    ∧ (commandCandidates "" [["ls", "zz"]]).count "ls" = 1
    ∧ (commandCandidates "" [["ls", "zz"]]).Nodup :=
  ⟨claim_C7_completion_no_duplicates.2.2.1 "" [["ls", "zz"]] "ls" (by decide) rfl,
   claim_C7_completion_no_duplicates.2.2.2 [["ls", "zz"]] "ls" (by decide),
   claim_C7_completion_no_duplicates.2.1 "" [["ls", "zz"]]⟩

/-! ## The interpreter loop

`main_loop` (`main.py` lines 455-499), one input line at a time.  Builtin
handlers are modelled as functions returning `Except String String`: an
`error e` models a Python exception with message `e`, an `ok res` the
returned output string.  `dispatch` is the `DISPATCH` table (kept abstract
so the theorems cover every builtin and every handler behaviour), `runExt`
the external-command fallback.  Crucially, `parts = shlex.split(line)` on
line 473 is *not* inside any `try`: a tokenization error propagates out of
`main_loop` and is caught only by the top-level handler, which prints
`Fatal error: ...` and lets the process exit. -/

/-- The static help text of `cmd_help` (abridged to its command list). -/
def helpText : String :=
  "Built-in commands: ls cd pwd mkdir rm rmdir cat touch mv cp clear sysinfo ps top history help exit quit"

/-- What one processed line does to the loop. -/
inductive Outcome
  | next (printed : List String)
  | exited (printed : List String)
  | fatal (msg : String)
deriving DecidableEq, Repr

/-- The dispatch section of the loop body (`main.py` lines 476-497):
`exit`/`quit` break; a builtin runs with its exceptions caught and rendered
`<command>: error: <message>`; `?`/`help` print the help; anything else
falls back to an external command. -/
def handleParts (dispatch : String → Option (List String → Except String String))
    (runExt : List String → String) (parts : List String) : Outcome :=
  match parts with
  | [] => .next []
  | cmd :: args =>
    if cmd = "exit" || cmd = "quit" then .exited []
    else
      match dispatch cmd with
      | some h =>
        match h args with
        | .ok res => .next (if res = "" then [] else [res])
        | .error e => .next [cmd ++ ": error: " ++ e]
      | none =>
        if cmd = "?" || cmd = "help" then .next [helpText]
        else
          let res := runExt parts
          .next (if res = "" then [] else [res])

/-- One loop iteration (`main.py` lines 470-497): skip blank lines, append
the raw line to the history, tokenize — where a `shlex` error escapes as
`fatal` — and dispatch. -/
def stepLine (dispatch : String → Option (List String → Except String String))
    (runExt : List String → String) (hist : List String) (line : String) :
    List String × Outcome :=
  if pyStripEmpty line then (hist, .next [])
  else
    let hist2 := append_history_line hist line
    match tokenize line with
    | .error e => (hist2, .fatal e)
    | .ok parts => (hist2, handleParts dispatch runExt parts)

/-- How a session ends: end of input, an explicit `exit`/`quit`, or an
uncaught exception reported by the top-level `Fatal error` handler. -/
inductive LoopEnd
  | eof
  | exitCmd
  | fatalErr (msg : String)
deriving DecidableEq, Repr

/-- The interpreter loop over a list of input lines: final history, printed
output, and how the session ended. -/
def runLoop (dispatch : String → Option (List String → Except String String))
    (runExt : List String → String) (hist : List String) :
    List String → List String × List String × LoopEnd
  | [] => (hist, [], .eof)
  | line :: rest =>
    match stepLine dispatch runExt hist line with
    | (h2, .next out) =>
      let r := runLoop dispatch runExt h2 rest
      (r.1, out ++ r.2.1, r.2.2)
    | (h2, .exited out) => (h2, out, .exitCmd)
    | (h2, .fatal m) => (h2, ["Fatal error: " ++ m], .fatalErr m)

/-- Claim C1: the line `echo 'x` (unterminated quote) makes `shlex.split`
raise, and because line 473 of `main.py` sits outside every `try`, the
exception terminates `main_loop`: the session ends with a top-level
`Fatal error` report, the remaining input lines are never read, and the
loop does not return to its reading state — contrary to the specification,
which requires the error to be reported and the loop to continue. -/
theorem claim_C1_tokenize_error_ends_loop :
    ∀ (dispatch : String → Option (List String → Except String String))
      (runExt : List String → String) (hist rest : List String),
      runLoop dispatch runExt hist ("echo 'x" :: rest)
        = (hist ++ ["echo 'x"], ["Fatal error: No closing quotation"],
           .fatalErr "No closing quotation") := by
  intro dispatch runExt hist rest
  have htok : tokenize "echo 'x" = .error "No closing quotation" := by decide
  have hblank : pyStripEmpty "echo 'x" = false := by decide
  simp [runLoop, stepLine, hblank, htok, append_history_line]

/-- Claim C8: whatever exception a builtin handler raises, the dispatcher
catches it, prints `<command>: error: <message>`, and the loop goes on to
process the remaining input exactly as it would have. -/
theorem claim_C8_builtin_error_caught
    (dispatch : String → Option (List String → Except String String))
    (runExt : List String → String) (hist : List String) (line : String)
    (cmd : String) (args : List String) (h : List String → Except String String)
    (e : String) (rest : List String)
    (hblank : pyStripEmpty line = false)
    (htok : tokenize line = .ok (cmd :: args))
    (hexit : cmd ≠ "exit") (hquit : cmd ≠ "quit")
    (hdisp : dispatch cmd = some h)
    (herr : h args = .error e) :
    runLoop dispatch runExt hist (line :: rest)
      = ((runLoop dispatch runExt (hist ++ [line]) rest).1,
         (cmd ++ ": error: " ++ e) :: (runLoop dispatch runExt (hist ++ [line]) rest).2.1,
         (runLoop dispatch runExt (hist ++ [line]) rest).2.2) := by
  simp [runLoop, stepLine, hblank, htok, handleParts, hexit, hquit, hdisp, herr,
    append_history_line]

/-- A one-entry dispatch table whose only handler always raises. -/
def dispatchBoom : String → Option (List String → Except String String) :=
  fun c => if c = "boom" then some (fun _ => .error "kaboom") else none

/-- Claim C8 witness: the raising handler's message is rendered and the
session still ends normally at end of input. -/
theorem claim_C8_witness :
    runLoop dispatchBoom (fun _ => "") [] ["boom now"]
      = (["boom now"], ["boom: error: kaboom"], .eof) := by
  have h := claim_C8_builtin_error_caught dispatchBoom (fun _ => "") [] "boom now"
    "boom" ["now"] (fun _ => Except.error "kaboom") "kaboom" []
    (by decide) (by decide) (by decide) (by decide) rfl rfl
  rw [h]
  rfl

end PyTerm
